import Mathlib

/-!
Shallow embedding of the tkym-graphics pixel-buffer library
(src/src/lib.rs) and verification of its specification claims.

Modelling conventions:
- The geometry collaborators `Vector2` and `Rect2` come from the external
  crate common::geo (not in this repository); the spec describes them as a
  2D integer point type and a rectangle with integer width/height and an
  area() accessor returning width*height.  They are modelled with `Int`
  fields.
- `u8` channel bytes are modelled as `Nat` (no arithmetic is ever done on
  them, so no overflow reduction is needed).
- The bitmap's backing allocation (`alloc_zeroed` of `size.area()` pixels)
  is modelled as a `List Pixel` of that length; a successful, non-null
  allocation is assumed (the constructor aborts on failure in the source).
- A raw-pointer dereference at an offset inside the allocation yields the
  stored value; a dereference at any other offset is undefined behavior,
  modelled by an explicit `undef` outcome (for reads and for the mutable
  accessor) and by `Option.none` as the result state of a drawing
  operation that performs such a write.
-/

namespace TkymGraphics

/-- The Pixel struct of the source: `repr(C)` with fields declared in the
byte order `b`, `g`, `r`, `__pad` (one `u8` each), i.e. BGRX8888.  The
source field `__pad` is named `pad` here. -/
structure Pixel where
  b : Nat
  g : Nat
  r : Nat
  pad : Nat
deriving DecidableEq

/-- `Pixel::new(r, g, b)`: stores the channels into the fields `r`, `g`,
`b` and sets `__pad: 0`. -/
def Pixel.new (r g b : Nat) : Pixel :=
  { b := b, g := g, r := r, pad := 0 }

/-- `impl From<(u8, u8, u8)> for Pixel`: calls `Pixel::new(value.0,
value.1, value.2)`. -/
def Pixel.fromTriple (value : Nat × Nat × Nat) : Pixel :=
  Pixel.new value.1 value.2.1 value.2.2

/-- The all-zero pixel produced by zero-filled allocation. -/
def Pixel.zero : Pixel :=
  { b := 0, g := 0, r := 0, pad := 0 }

/-- Modelled from the spec: the external 2D integer point type
`common::geo::Vector2` with fields `x` and `y`. -/
structure Vector2 where
  x : Int
  y : Int
deriving DecidableEq

/-- Modelled from the spec: the external rectangle type
`common::geo::Rect2` with integer `width` and `height`. -/
structure Rect2 where
  width : Int
  height : Int
deriving DecidableEq

/-- Modelled from the spec: `Rect2::area()` returns `width * height`. -/
def Rect2.area (r : Rect2) : Int :=
  r.width * r.height

/-- The Bitmap struct: a size descriptor and the backing allocation.  The
source stores a `Layout` and a raw `*mut Pixel`; the allocation's content
is modelled as the list of pixels it holds. -/
structure Bitmap where
  size : Rect2
  memory : List Pixel
deriving DecidableEq

/-- `Bitmap::new(size)`: allocates (`alloc_zeroed`) a block of
`size.area() as usize` pixels, all zero bytes.  `as usize` on a negative
area is modelled by `Int.toNat` (the spec restricts sizes to non-negative
width and height, where the two agree). -/
def Bitmap.new (size : Rect2) : Bitmap :=
  { size := size, memory := List.replicate size.area.toNat Pixel.zero }

/-- Index resolution shared by `pixel_at_point` and `pixel_at_point_mut`:
`let index = width * y + x`. -/
def Bitmap.indexOf (bm : Bitmap) (p : Vector2) : Int :=
  bm.size.width * p.y + p.x

/-- Outcome of the read accessor.  The source returns `Option<&Pixel>` via
`ptr.offset(index).as_ref()`, which is `None` only for a null pointer
(excluded by the successful-allocation assumption): an in-allocation read
yields `Some` of the stored pixel (`value`), and any other offset is an
out-of-allocation dereference (`undef`). -/
inductive ReadOutcome where
  | value : Pixel → ReadOutcome
  | undef : ReadOutcome
deriving DecidableEq

/-- `Bitmap::pixel_at_point`: resolves the index, then performs an
UNCHECKED dereference at that offset.  The source's only guard is
`debug_assert!(index < width * height)`, which is compiled out of release
builds (and aborts, rather than returning `None`, in debug builds); there
is no code path returning a defined absent value. -/
def Bitmap.pixel_at_point (bm : Bitmap) (p : Vector2) : ReadOutcome :=
  if 0 ≤ bm.indexOf p then
    match bm.memory[(bm.indexOf p).toNat]? with
    | some px => ReadOutcome.value px
    | none => ReadOutcome.undef
  else ReadOutcome.undef

/-- Outcome of the mutable accessor `pixel_at_point_mut`, which returns
`Result<&mut Pixel, RenderError>`.  `ok i` is `Ok` of the mutable slot at
linear index `i`; `drawOOB` and `memoryError` are the two `RenderError`
variants; `undef` is a dereference outside the allocation (the source
reaches its `unsafe` block with such an index when the bounds test
passes it). -/
inductive MutOutcome where
  | ok : Nat → MutOutcome
  | drawOOB : MutOutcome
  | memoryError : MutOutcome
  | undef : MutOutcome
deriving DecidableEq

/-- `Bitmap::pixel_at_point_mut`: resolves the index, returns
`Err(DrawOOB)` when `index > width * height` (a STRICT comparison in the
source), and otherwise dereferences `ptr.offset(index)`.  `as_mut` yields
`None` (hence `Err(MemoryError)`) only for a null pointer, excluded by the
successful-allocation assumption; an offset inside the allocation yields
the slot, any other offset (negative, or one past the end when
`index = width * height`) is undefined behavior. -/
def Bitmap.pixel_at_point_mut (bm : Bitmap) (p : Vector2) : MutOutcome :=
  if bm.indexOf p > bm.size.width * bm.size.height then MutOutcome.drawOOB
  else if 0 ≤ bm.indexOf p ∧ (bm.indexOf p).toNat < bm.memory.length then
    MutOutcome.ok (bm.indexOf p).toNat
  else MutOutcome.undef

/-- `Bitmap::draw_point(point, pixel)`: `if let Ok(old_pixel) =
self.pixel_at_point_mut(point) { *old_pixel = pixel; }` — a successful
lookup writes the pixel in place, an `Err` is silently dropped.  `none`
is the undefined-behavior case (the write would go through a reference
outside the allocation). -/
def Bitmap.draw_point (bm : Bitmap) (point : Vector2) (pixel : Pixel) : Option Bitmap :=
  match bm.pixel_at_point_mut point with
  | MutOutcome.ok i => some { bm with memory := bm.memory.set i pixel }
  | MutOutcome.drawOOB => some bm
  | MutOutcome.memoryError => some bm
  | MutOutcome.undef => none

/-- The Rust range `0..=n` over a signed integer type: empty when
`n < 0`, else the integers `0, 1, ..., n`. -/
def rangeIncl (n : Int) : List Int :=
  if n < 0 then [] else (List.range (n.toNat + 1)).map Int.ofNat

/-- `Bitmap::draw_rect(offset, rect, pixel)`: `for mut x in
0..=rect.width { x += offset.x; for mut y in 0..=rect.height { y +=
offset.y; self.draw_point((x, y), pixel); } }`.  The nested loops are the
nested monadic folds; `Option` threads the undefined-behavior case of
`draw_point`. -/
def Bitmap.draw_rect (bm : Bitmap) (offset : Vector2) (rect : Rect2) (pixel : Pixel) :
    Option Bitmap :=
  (rangeIncl rect.width).foldlM
    (fun acc x =>
      (rangeIncl rect.height).foldlM
        (fun acc2 y => acc2.draw_point { x := offset.x + x, y := offset.y + y } pixel)
        acc)
    bm

/-- Well-formedness of a bitmap state: the size is non-negative (the spec
assumes geometry is validated by the caller) and the allocation holds
exactly `area` pixels, as established by `Bitmap::new` and preserved by
every operation (no resize). -/
def Bitmap.Wf (bm : Bitmap) : Prop :=
  0 ≤ bm.size.width ∧ 0 ≤ bm.size.height ∧ bm.memory.length = bm.size.area.toNat

instance (bm : Bitmap) : Decidable bm.Wf := by
  unfold Bitmap.Wf
  exact inferInstance

/-- The list of points `draw_rect` visits, in iteration order: the outer
loop over `x`, the inner loop over `y`, each translated by the offset. -/
def rectPoints (offset : Vector2) (rect : Rect2) : List Vector2 :=
  (rangeIncl rect.width).flatMap (fun x =>
    (rangeIncl rect.height).map (fun y => { x := offset.x + x, y := offset.y + y }))

/-- The padding invariant of §3 of the spec: every pixel stored in the
bitmap has a zero padding byte. -/
def PadZeroInv (bm : Bitmap) : Prop :=
  ∀ px ∈ bm.memory, px.pad = 0

instance (bm : Bitmap) : Decidable (PadZeroInv bm) :=
  List.decidableBAll _ bm.memory

/-! ## Helper lemmas -/

/-- Row-major arithmetic: coordinates inside the rectangle resolve to an
index inside the area. -/
lemma index_bounds {w h x y : Int} (hx : 0 ≤ x) (hxl : x < w) (hy : 0 ≤ y) (hyl : y < h) :
    0 ≤ w * y + x ∧ w * y + x < w * h := by
  have hw : (0 : Int) < w := lt_of_le_of_lt hx hxl
  constructor
  · have hnn : (0 : Int) ≤ w * y := mul_nonneg hw.le hy
    linarith
  · have h1 : w * (y + 1) ≤ w * h := mul_le_mul_of_nonneg_left (by omega) hw.le
    have h2 : w * (y + 1) = w * y + w := by ring
    linarith

/-- Row-major resolution is injective on in-row coordinates. -/
lemma index_inj {w x1 y1 x2 y2 : Int} (hx1 : 0 ≤ x1) (hxl1 : x1 < w)
    (hx2 : 0 ≤ x2) (hxl2 : x2 < w) (_hy1 : 0 ≤ y1) (_hy2 : 0 ≤ y2)
    (heq : w * y1 + x1 = w * y2 + x2) : x1 = x2 ∧ y1 = y2 := by
  have hw : (0 : Int) < w := lt_of_le_of_lt hx1 hxl1
  have hy : y1 = y2 := by
    by_contra hne
    rcases lt_or_gt_of_ne hne with hlt | hgt
    · have h1 : w * (y1 + 1) ≤ w * y2 := mul_le_mul_of_nonneg_left (by omega) hw.le
      have h2 : w * (y1 + 1) = w * y1 + w := by ring
      linarith
    · have h1 : w * (y2 + 1) ≤ w * y1 := mul_le_mul_of_nonneg_left (by omega) hw.le
      have h2 : w * (y2 + 1) = w * y2 + w := by ring
      linarith
  subst hy
  exact ⟨by linarith, rfl⟩

/-- Under well-formedness, a resolved index inside the area is inside the
allocation. -/
lemma toNat_lt_length_of_lt_area (bm : Bitmap) {i : Int} (hwf : bm.Wf)
    (h0 : 0 ≤ i) (hlt : i < bm.size.width * bm.size.height) :
    i.toNat < bm.memory.length := by
  obtain ⟨-, -, hL⟩ := hwf
  unfold Rect2.area at hL
  revert hL h0 hlt
  generalize bm.size.width * bm.size.height = A
  intro hL h0 hlt
  omega

/-- At in-bounds coordinates (under well-formedness) the mutable accessor
hands out the slot at the resolved index. -/
lemma pixel_at_point_mut_valid (bm : Bitmap) (p : Vector2) (hwf : bm.Wf)
    (hx : 0 ≤ p.x) (hxl : p.x < bm.size.width) (hy : 0 ≤ p.y) (hyl : p.y < bm.size.height) :
    bm.pixel_at_point_mut p = MutOutcome.ok (bm.indexOf p).toNat ∧
      (bm.indexOf p).toNat < bm.memory.length := by
  have hb : 0 ≤ bm.indexOf p ∧ bm.indexOf p < bm.size.width * bm.size.height :=
    index_bounds hx hxl hy hyl
  have hlen : (bm.indexOf p).toNat < bm.memory.length :=
    toNat_lt_length_of_lt_area bm hwf hb.1 hb.2
  refine ⟨?_, hlen⟩
  unfold Bitmap.pixel_at_point_mut
  rw [if_neg (not_lt.mpr hb.2.le), if_pos ⟨hb.1, hlen⟩]

/-- At in-bounds coordinates (under well-formedness) `draw_point` writes
the pixel at the resolved index. -/
lemma draw_point_valid (bm : Bitmap) (p : Vector2) (px : Pixel) (hwf : bm.Wf)
    (hx : 0 ≤ p.x) (hxl : p.x < bm.size.width) (hy : 0 ≤ p.y) (hyl : p.y < bm.size.height) :
    bm.draw_point p px =
      some { bm with memory := bm.memory.set (bm.indexOf p).toNat px } := by
  unfold Bitmap.draw_point
  rw [(pixel_at_point_mut_valid bm p hwf hx hxl hy hyl).1]

/-- The read accessor at an index inside the allocation returns the stored
pixel. -/
lemma pixel_at_point_value (bm : Bitmap) (p : Vector2) (q : Pixel)
    (h0 : 0 ≤ bm.indexOf p) (hq : bm.memory[(bm.indexOf p).toNat]? = some q) :
    bm.pixel_at_point p = ReadOutcome.value q := by
  unfold Bitmap.pixel_at_point
  rw [if_pos h0, hq]

/-! ## Claims -/

/-- C1: at a resolved index exactly equal to `width * height` (here the
2×2 bitmap and point (0,2), index 4), the strict comparison of
`pixel_at_point_mut` lets the index through: the call does not fail with
`DrawOOB` but dereferences one past the end of the allocation (undefined
behavior). -/
theorem c1_boundary_index_not_rejected :
    (Bitmap.new { width := 2, height := 2 }).indexOf { x := 0, y := 2 } =
      (Bitmap.new { width := 2, height := 2 }).size.area ∧
    (Bitmap.new { width := 2, height := 2 }).pixel_at_point_mut { x := 0, y := 2 } =
      MutOutcome.undef := by decide

/-- C2: the read accessor has no runtime bounds check: at an out-of-range
point ((0,2) on the 2×2 bitmap, resolved index 4 = area) it does not
return a defined absent value but reads outside the allocation (the only
guard in the source is a debug_assert, absent from release builds). -/
theorem c2_read_out_of_range_unchecked :
    (Bitmap.new { width := 2, height := 2 }).indexOf { x := 0, y := 2 } =
      (Bitmap.new { width := 2, height := 2 }).size.area ∧
    (Bitmap.new { width := 2, height := 2 }).pixel_at_point { x := 0, y := 2 } =
      ReadOutcome.undef := by decide

/-- C5: every pixel of a freshly constructed bitmap read at in-bounds
coordinates is the zero pixel (r = g = b = 0, padding 0). -/
theorem c5_fresh_bitmap_zero (size : Rect2) (p : Vector2)
    (hx : 0 ≤ p.x) (hxl : p.x < size.width) (hy : 0 ≤ p.y) (hyl : p.y < size.height) :
    (Bitmap.new size).pixel_at_point p = ReadOutcome.value Pixel.zero := by
  have hb : 0 ≤ (Bitmap.new size).indexOf p ∧
      (Bitmap.new size).indexOf p <
        (Bitmap.new size).size.width * (Bitmap.new size).size.height :=
    index_bounds hx hxl hy hyl
  have hwf : (Bitmap.new size).Wf := by
    refine ⟨?_, ?_, ?_⟩
    · show (0 : Int) ≤ size.width
      linarith [lt_of_le_of_lt hx hxl]
    · show (0 : Int) ≤ size.height
      linarith [lt_of_le_of_lt hy hyl]
    · simp [Bitmap.new]
  have hlt : ((Bitmap.new size).indexOf p).toNat < (Bitmap.new size).memory.length :=
    toNat_lt_length_of_lt_area _ hwf hb.1 hb.2
  have hlt0 : ((Bitmap.new size).indexOf p).toNat < size.area.toNat := by
    simpa [Bitmap.new] using hlt
  refine pixel_at_point_value _ p Pixel.zero hb.1 ?_
  show (List.replicate size.area.toNat Pixel.zero)[((Bitmap.new size).indexOf p).toNat]? =
    some Pixel.zero
  rw [List.getElem?_replicate, if_pos hlt0]

/-- C5 witness: the fresh 2×2 bitmap reads zero at (1,1). -/
theorem c5_fresh_bitmap_zero_witness :
    (Bitmap.new { width := 2, height := 2 }).pixel_at_point { x := 1, y := 1 } =
      ReadOutcome.value Pixel.zero :=
  c5_fresh_bitmap_zero { width := 2, height := 2 } { x := 1, y := 1 }
    (by decide) (by decide) (by decide) (by decide)

/-- C6: round-trip — writing a pixel at in-bounds coordinates through
`draw_point` (which writes through `pixel_at_point_mut`) and reading the
same coordinates back through `pixel_at_point` yields that pixel. -/
theorem c6_round_trip (bm : Bitmap) (p : Vector2) (px : Pixel) (hwf : bm.Wf)
    (hx : 0 ≤ p.x) (hxl : p.x < bm.size.width) (hy : 0 ≤ p.y) (hyl : p.y < bm.size.height) :
    (bm.draw_point p px).map (fun bm2 => bm2.pixel_at_point p) =
      some (ReadOutcome.value px) := by
  have hlen : (bm.indexOf p).toNat < bm.memory.length :=
    (pixel_at_point_mut_valid bm p hwf hx hxl hy hyl).2
  rw [draw_point_valid bm p px hwf hx hxl hy hyl, Option.map_some']
  refine congrArg some ?_
  refine pixel_at_point_value { bm with memory := bm.memory.set (bm.indexOf p).toNat px } p px
    (index_bounds hx hxl hy hyl).1 ?_
  show (bm.memory.set (bm.indexOf p).toNat px)[(bm.indexOf p).toNat]? = some px
  exact List.getElem?_set_eq_of_lt px hlen

/-- C3 counterexample: on the 2×2 bitmap the point (2,0) is out of range
(its x equals the width), yet `draw_point` there is not a no-op: it
changes the valid pixel (0,1) from zero to the written value. -/
theorem c3_counterexample :
    (Bitmap.new { width := 2, height := 2 }).pixel_at_point { x := 0, y := 1 } =
      ReadOutcome.value Pixel.zero ∧
    ((Bitmap.new { width := 2, height := 2 }).draw_point { x := 2, y := 0 }
      (Pixel.new 9 9 9)).map (fun bm => bm.pixel_at_point { x := 0, y := 1 }) =
      some (ReadOutcome.value (Pixel.new 9 9 9)) ∧
    Pixel.new 9 9 9 ≠ Pixel.zero := by decide

/-- C3 amended: `draw_point` surfaces no error; for a point whose resolved
index is strictly greater than `width * height` it is a silent no-op (the
bitmap is returned unchanged), and for a point whose resolved index lies
inside `[0, width*height)` it writes the given pixel at that linear
index. -/
theorem c3_draw_point_clipping (bm : Bitmap) (p : Vector2) (px : Pixel) (hwf : bm.Wf) :
    (bm.size.width * bm.size.height < bm.indexOf p → bm.draw_point p px = some bm) ∧
    (0 ≤ bm.indexOf p → bm.indexOf p < bm.size.width * bm.size.height →
      bm.draw_point p px =
        some { bm with memory := bm.memory.set (bm.indexOf p).toNat px }) := by
  constructor
  · intro hgt
    unfold Bitmap.draw_point Bitmap.pixel_at_point_mut
    rw [if_pos hgt]
  · intro h0 hlt
    have hlen : (bm.indexOf p).toNat < bm.memory.length :=
      toNat_lt_length_of_lt_area bm hwf h0 hlt
    unfold Bitmap.draw_point Bitmap.pixel_at_point_mut
    rw [if_neg (not_lt.mpr hlt.le), if_pos ⟨h0, hlen⟩]

/-- C3 witness: on the 2×2 bitmap, (5,5) resolves past the area and the
call returns the bitmap unchanged; (1,1) resolves in range and the call
writes slot 3. -/
theorem c3_draw_point_clipping_witness :
    (Bitmap.new { width := 2, height := 2 }).draw_point { x := 5, y := 5 } (Pixel.new 1 2 3) =
      some (Bitmap.new { width := 2, height := 2 }) ∧
    (Bitmap.new { width := 2, height := 2 }).draw_point { x := 1, y := 1 } (Pixel.new 1 2 3) =
      some { size := { width := 2, height := 2 },
             memory := [Pixel.zero, Pixel.zero, Pixel.zero, Pixel.new 1 2 3] } :=
  ⟨(c3_draw_point_clipping (Bitmap.new { width := 2, height := 2 }) { x := 5, y := 5 }
      (Pixel.new 1 2 3) (by decide)).1 (by decide),
   (c3_draw_point_clipping (Bitmap.new { width := 2, height := 2 }) { x := 1, y := 1 }
      (Pixel.new 1 2 3) (by decide)).2 (by decide) (by decide)⟩

/-- C6 witness: on the 2×2 bitmap, writing (1,2,3) at (1,0) and reading
(1,0) back returns (1,2,3). -/
theorem c6_round_trip_witness :
    ((Bitmap.new { width := 2, height := 2 }).draw_point { x := 1, y := 0 }
      (Pixel.new 1 2 3)).map (fun bm2 => bm2.pixel_at_point { x := 1, y := 0 }) =
      some (ReadOutcome.value (Pixel.new 1 2 3)) :=
  c6_round_trip (Bitmap.new { width := 2, height := 2 }) { x := 1, y := 0 }
    (Pixel.new 1 2 3) (by decide) (by decide) (by decide) (by decide) (by decide)

/-- C7 counterexample: on the 2×2 bitmap, writing at (2,0) — a point
distinct from (0,1) — changes the value stored at the valid point (0,1),
so a write at an arbitrary point can alias another valid pixel. -/
theorem c7_counterexample :
    ({ x := 2, y := 0 } : Vector2) ≠ ({ x := 0, y := 1 } : Vector2) ∧
    (Bitmap.new { width := 2, height := 2 }).pixel_at_point { x := 0, y := 1 } =
      ReadOutcome.value Pixel.zero ∧
    ((Bitmap.new { width := 2, height := 2 }).draw_point { x := 2, y := 0 }
      (Pixel.new 7 7 7)).map (fun bm => bm.pixel_at_point { x := 0, y := 1 }) =
      some (ReadOutcome.value (Pixel.new 7 7 7)) ∧
    Pixel.new 7 7 7 ≠ Pixel.zero := by decide

/-- C7 amended: writing through `draw_point` at a VALID point (x,y) (with
0 ≤ x < width and 0 ≤ y < height) does not alter the value read at any
other valid point (x',y') ≠ (x,y). -/
theorem c7_no_aliasing (bm : Bitmap) (p q : Vector2) (px : Pixel) (hwf : bm.Wf)
    (hpx : 0 ≤ p.x) (hpxl : p.x < bm.size.width)
    (hpy : 0 ≤ p.y) (hpyl : p.y < bm.size.height)
    (hqx : 0 ≤ q.x) (hqxl : q.x < bm.size.width)
    (hqy : 0 ≤ q.y) (hqyl : q.y < bm.size.height)
    (hne : q ≠ p) :
    (bm.draw_point p px).map (fun bm2 => bm2.pixel_at_point q) =
      some (bm.pixel_at_point q) := by
  have hbp : 0 ≤ bm.indexOf p ∧ bm.indexOf p < bm.size.width * bm.size.height :=
    index_bounds hpx hpxl hpy hpyl
  have hbq : 0 ≤ bm.indexOf q ∧ bm.indexOf q < bm.size.width * bm.size.height :=
    index_bounds hqx hqxl hqy hqyl
  have hlenq : (bm.indexOf q).toNat < bm.memory.length :=
    toNat_lt_length_of_lt_area bm hwf hbq.1 hbq.2
  have hdiff : (bm.indexOf p).toNat ≠ (bm.indexOf q).toNat := by
    intro hcontra
    have hint : bm.indexOf p = bm.indexOf q := by omega
    have hco := index_inj hpx hpxl hqx hqxl hpy hqy hint
    apply hne
    obtain ⟨qx, qy⟩ := q
    obtain ⟨px2, py2⟩ := p
    simp only [Vector2.mk.injEq]
    exact ⟨hco.1.symm, hco.2.symm⟩
  rw [draw_point_valid bm p px hwf hpx hpxl hpy hpyl, Option.map_some']
  refine congrArg some ?_
  have hold : bm.memory[(bm.indexOf q).toNat]? = some (bm.memory.get ⟨(bm.indexOf q).toNat, hlenq⟩) := by
    rw [List.getElem?_eq_getElem hlenq]
    rfl
  rw [pixel_at_point_value bm q _ hbq.1 hold]
  refine pixel_at_point_value _ q _ hbq.1 ?_
  show (bm.memory.set (bm.indexOf p).toNat px)[(bm.indexOf q).toNat]? =
    some (bm.memory.get ⟨(bm.indexOf q).toNat, hlenq⟩)
  have hlenq2 : (bm.indexOf q).toNat < (bm.memory.set (bm.indexOf p).toNat px).length := by
    rw [List.length_set]
    exact hlenq
  rw [List.getElem?_eq_getElem hlenq2]
  refine congrArg some ?_
  rw [List.getElem_set_ne hdiff, List.get_eq_getElem]

/-- C7 witness: on the 2×2 bitmap, writing at the valid point (0,0) leaves
the read at the valid point (1,1) unchanged. -/
theorem c7_no_aliasing_witness :
    ((Bitmap.new { width := 2, height := 2 }).draw_point { x := 0, y := 0 }
      (Pixel.new 7 7 7)).map (fun bm2 => bm2.pixel_at_point { x := 1, y := 1 }) =
      some ((Bitmap.new { width := 2, height := 2 }).pixel_at_point { x := 1, y := 1 }) :=
  c7_no_aliasing (Bitmap.new { width := 2, height := 2 }) { x := 0, y := 0 } { x := 1, y := 1 }
    (Pixel.new 7 7 7) (by decide) (by decide) (by decide) (by decide) (by decide)
    (by decide) (by decide) (by decide) (by decide) (by decide)

/-- C8 counterexample: on the 2×2 bitmap and the point (2,0) with
non-negative coordinates, the resolved index 2 lies inside [0, area), yet
x = 2 is not smaller than the width 2: the claimed equivalence between
index validity and per-coordinate validity is false. -/
theorem c8_counterexample :
    ¬ ((0 ≤ (Bitmap.new { width := 2, height := 2 }).indexOf { x := 2, y := 0 } ∧
        (Bitmap.new { width := 2, height := 2 }).indexOf { x := 2, y := 0 } <
          (Bitmap.new { width := 2, height := 2 }).size.area) ↔
       (0 ≤ (2 : Int) ∧ (2 : Int) < (Bitmap.new { width := 2, height := 2 }).size.width ∧
        0 ≤ (0 : Int) ∧ (0 : Int) < (Bitmap.new { width := 2, height := 2 }).size.height)) := by
  decide

/-- C8 amended: for a point with non-negative coordinates, per-coordinate
validity (x < width and y < height) implies index validity
(0 ≤ y*width+x < width*height); the converse implication holds under the
additional assumption x < width (without it, a point with x ≥ width can
alias to a valid index). -/
theorem c8_index_validity (bm : Bitmap) (p : Vector2) (hx : 0 ≤ p.x) (hy : 0 ≤ p.y) :
    ((p.x < bm.size.width ∧ p.y < bm.size.height) →
      (0 ≤ bm.indexOf p ∧ bm.indexOf p < bm.size.area)) ∧
    (p.x < bm.size.width →
      (0 ≤ bm.indexOf p ∧ bm.indexOf p < bm.size.area) →
      (p.x < bm.size.width ∧ p.y < bm.size.height)) := by
  constructor
  · intro hco
    exact index_bounds hx hco.1 hy hco.2
  · intro hxl hidx
    refine ⟨hxl, ?_⟩
    have hw : (0 : Int) < bm.size.width := lt_of_le_of_lt hx hxl
    have h1 : bm.size.width * p.y ≤ bm.indexOf p := by
      unfold Bitmap.indexOf
      linarith
    have h2 : bm.size.width * p.y < bm.size.width * bm.size.height := by
      have := hidx.2
      unfold Rect2.area at this
      linarith
    exact lt_of_mul_lt_mul_left h2 hw.le

/-- C8 witness: on the 2×2 bitmap at (1,1), both directions apply: the
coordinates are valid and the resolved index 3 lies inside [0, 4). -/
theorem c8_index_validity_witness :
    0 ≤ (Bitmap.new { width := 2, height := 2 }).indexOf { x := 1, y := 1 } ∧
    (Bitmap.new { width := 2, height := 2 }).indexOf { x := 1, y := 1 } <
      (Bitmap.new { width := 2, height := 2 }).size.area :=
  (c8_index_validity (Bitmap.new { width := 2, height := 2 }) { x := 1, y := 1 }
    (by decide) (by decide)).1 (by decide)

/-- C10: on a bitmap with width ≥ 1 and height ≥ 2, the write path does
not reject a point with x ≥ width whose resolved index stays at or below
width*height; in particular a write at (width, 0) lands on linear index
width, which is what a read at (0,1) resolves to, so the written pixel
reappears there. -/
theorem c10_row_aliasing (bm : Bitmap) (px : Pixel) (hwf : bm.Wf)
    (hW : 1 ≤ bm.size.width) (hH : 2 ≤ bm.size.height) :
    (∀ p : Vector2, bm.size.width ≤ p.x → 0 ≤ p.y →
        bm.indexOf p ≤ bm.size.width * bm.size.height →
        bm.pixel_at_point_mut p ≠ MutOutcome.drawOOB) ∧
    ((bm.draw_point { x := bm.size.width, y := 0 } px).map
        (fun bm2 => bm2.pixel_at_point { x := 0, y := 1 }) =
      some (ReadOutcome.value px)) := by
  have hWpos : (0 : Int) < bm.size.width := by linarith
  constructor
  · intro p _ _ hle
    unfold Bitmap.pixel_at_point_mut
    rw [if_neg (not_lt.mpr hle)]
    split
    · intro hcon
      exact MutOutcome.noConfusion hcon
    · intro hcon
      exact MutOutcome.noConfusion hcon
  · have hidx : bm.indexOf { x := bm.size.width, y := 0 } = bm.size.width := by
      unfold Bitmap.indexOf
      ring
    have hidx2 : bm.indexOf { x := 0, y := 1 } = bm.size.width := by
      unfold Bitmap.indexOf
      ring
    have h0 : 0 ≤ bm.indexOf { x := bm.size.width, y := 0 } := by
      rw [hidx]
      linarith
    have hlt : bm.indexOf { x := bm.size.width, y := 0 } <
        bm.size.width * bm.size.height := by
      rw [hidx]
      have h2 : bm.size.width * 2 ≤ bm.size.width * bm.size.height :=
        mul_le_mul_of_nonneg_left hH hWpos.le
      linarith
    have hlen : (bm.indexOf { x := bm.size.width, y := 0 }).toNat < bm.memory.length :=
      toNat_lt_length_of_lt_area bm hwf h0 hlt
    unfold Bitmap.draw_point
    unfold Bitmap.pixel_at_point_mut
    rw [if_neg (not_lt.mpr hlt.le), if_pos ⟨h0, hlen⟩, Option.map_some']
    refine congrArg some ?_
    refine pixel_at_point_value _ { x := 0, y := 1 } px ?_ ?_
    · show 0 ≤ bm.indexOf { x := 0, y := 1 }
      rw [hidx2]
      linarith
    · show (bm.memory.set (bm.indexOf { x := bm.size.width, y := 0 }).toNat px)[
        (bm.indexOf { x := 0, y := 1 }).toNat]? = some px
      have hij : (bm.indexOf { x := 0, y := 1 }).toNat =
          (bm.indexOf { x := bm.size.width, y := 0 }).toNat := by
        rw [hidx, hidx2]
      rw [hij]
      exact List.getElem?_set_eq_of_lt px hlen

/-- C10 witness: on the 2×2 bitmap, drawing (5,6,7) at (2,0) makes the
read at (0,1) return (5,6,7). -/
theorem c10_row_aliasing_witness :
    ((Bitmap.new { width := 2, height := 2 }).draw_point { x := 2, y := 0 }
        (Pixel.new 5 6 7)).map
      (fun bm2 => bm2.pixel_at_point { x := 0, y := 1 }) =
      some (ReadOutcome.value (Pixel.new 5 6 7)) :=
  (c10_row_aliasing (Bitmap.new { width := 2, height := 2 }) (Pixel.new 5 6 7)
    (by decide) (by decide) (by decide)).2

/-- A `draw_point` with a zero-padding pixel preserves the padding
invariant. -/
lemma padZeroInv_draw_point {bm bm2 : Bitmap} {p : Vector2} {px : Pixel}
    (hinv : PadZeroInv bm) (hpx : px.pad = 0) (heq : bm.draw_point p px = some bm2) :
    PadZeroInv bm2 := by
  unfold Bitmap.draw_point at heq
  cases hmut : bm.pixel_at_point_mut p <;> rw [hmut] at heq
  case ok i =>
    injection heq with h
    subst h
    intro q hq
    rcases List.mem_or_eq_of_mem_set hq with hmem | hqpx
    · exact hinv q hmem
    · rw [hqpx]
      exact hpx
  case drawOOB =>
    injection heq with h
    subst h
    exact hinv
  case memoryError =>
    injection heq with h
    subst h
    exact hinv
  case undef =>
    exact Option.noConfusion heq

/-- An `Option`-valued fold whose step preserves the padding invariant
preserves it. -/
lemma padZeroInv_foldlM {α : Type} (f : Bitmap → α → Option Bitmap)
    (hf : ∀ bm a bm2, PadZeroInv bm → f bm a = some bm2 → PadZeroInv bm2) :
    ∀ (l : List α) (bm bm2 : Bitmap), PadZeroInv bm →
      l.foldlM f bm = some bm2 → PadZeroInv bm2 := by
  intro l
  induction l with
  | nil =>
    intro bm bm2 hinv heq
    rw [List.foldlM_nil] at heq
    injection heq with h
    subst h
    exact hinv
  | cons a l ih =>
    intro bm bm2 hinv heq
    rw [List.foldlM_cons] at heq
    cases hfa : f bm a with
    | none =>
      rw [hfa] at heq
      exact Option.noConfusion heq
    | some bmid =>
      rw [hfa] at heq
      exact ih bmid bm2 (hf bm a bmid hinv hfa) heq

/-- A `draw_rect` with a zero-padding pixel preserves the padding
invariant. -/
lemma padZeroInv_draw_rect {bm bm2 : Bitmap} {offset : Vector2} {rect : Rect2} {px : Pixel}
    (hinv : PadZeroInv bm) (hpx : px.pad = 0) (heq : bm.draw_rect offset rect px = some bm2) :
    PadZeroInv bm2 := by
  unfold Bitmap.draw_rect at heq
  refine padZeroInv_foldlM _ ?_ _ bm bm2 hinv heq
  intro bma x bmb hinva heqa
  refine padZeroInv_foldlM _ ?_ _ bma bmb hinva heqa
  intro bmc y bmd hinvc heqc
  exact padZeroInv_draw_point hinvc hpx heqc

/-- C9: `Pixel::new(r,g,b)` stores the channels in the declared byte order
blue, green, red followed by a zero padding byte; the triple conversion
goes through `Pixel::new`; a fresh bitmap satisfies the zero-padding
invariant; and both drawing operations, fed pixels built by `Pixel::new`,
preserve it — so no operation produces a pixel with a nonzero padding
byte. -/
theorem c9_pixel_layout_pad_zero :
    (∀ r g b : Nat, Pixel.new r g b = { b := b, g := g, r := r, pad := 0 } ∧
      Pixel.fromTriple (r, g, b) = Pixel.new r g b) ∧
    (∀ size : Rect2, PadZeroInv (Bitmap.new size)) ∧
    (∀ (bm : Bitmap) (p : Vector2) (r g b : Nat) (bm2 : Bitmap),
      PadZeroInv bm → bm.draw_point p (Pixel.new r g b) = some bm2 → PadZeroInv bm2) ∧
    (∀ (bm : Bitmap) (offset : Vector2) (rect : Rect2) (r g b : Nat) (bm2 : Bitmap),
      PadZeroInv bm → bm.draw_rect offset rect (Pixel.new r g b) = some bm2 →
        PadZeroInv bm2) := by
  refine ⟨fun r g b => ⟨rfl, rfl⟩, ?_, ?_, ?_⟩
  · intro size q hq
    have : q = Pixel.zero := List.eq_of_mem_replicate hq
    rw [this]
    rfl
  · intro bm p r g b bm2 hinv heq
    exact padZeroInv_draw_point hinv rfl heq
  · intro bm offset rect r g b bm2 hinv heq
    exact padZeroInv_draw_rect hinv rfl heq

/-- C9 witness: drawing (1,2,3) at (0,0) on the fresh 2×2 bitmap yields a
state every pixel of which has a zero padding byte. -/
theorem c9_pixel_layout_pad_zero_witness :
    PadZeroInv { size := { width := 2, height := 2 },
                 memory := [Pixel.new 1 2 3, Pixel.zero, Pixel.zero, Pixel.zero] } :=
  c9_pixel_layout_pad_zero.2.2.1 (Bitmap.new { width := 2, height := 2 }) { x := 0, y := 0 }
    1 2 3 { size := { width := 2, height := 2 },
            memory := [Pixel.new 1 2 3, Pixel.zero, Pixel.zero, Pixel.zero] }
    (by decide) (by decide)

/-- An `Option`-valued fold over a flattened list is the nested fold. -/
lemma foldlM_flatMap {α β γ : Type} (l : List α) (g : α → List β)
    (f : γ → β → Option γ) :
    ∀ c : γ, (l.flatMap g).foldlM f c =
      l.foldlM (fun acc a => (g a).foldlM f acc) c := by
  induction l with
  | nil => intro c; rfl
  | cons a l ih =>
    intro c
    rw [List.flatMap_cons, List.foldlM_append, List.foldlM_cons]
    cases hga : (g a).foldlM f c with
    | none =>
      simp only [hga, Option.bind_eq_bind, Option.none_bind]
    | some cmid =>
      simp only [hga, Option.bind_eq_bind, Option.some_bind]
      exact ih cmid

/-- C4 counterexample: on the 10×10 bitmap, `draw_rect((2,2),
rect{width:3, height:3}, (10,20,30))` leaves the point (6,2) at the zero
pixel: the painted x range is not the claimed inclusive [2,6]. -/
theorem c4_counterexample :
    ((Bitmap.new { width := 10, height := 10 }).draw_rect { x := 2, y := 2 }
      { width := 3, height := 3 } (Pixel.new 10 20 30)).map
      (fun bm => bm.pixel_at_point { x := 6, y := 2 }) =
      some (ReadOutcome.value Pixel.zero) ∧
    Pixel.new 10 20 30 ≠ Pixel.zero := by decide

/-- C4 amended: `draw_rect` calls `draw_point` exactly at the points
(offset.x+x, offset.y+y) for x over the inclusive range [0, rect.width]
and y over the inclusive range [0, rect.height] — (rect.width+1) *
(rect.height+1) points; concretely, on the 10×10 bitmap, draw_rect((2,2),
rect{width:3, height:3}, (10,20,30)) paints exactly the points with x in
[2,5] and y in [2,5] (16 points) and leaves every other point, (1,1) and
(7,7) included, at zero. -/
theorem c4_draw_rect_inclusive (bm : Bitmap) (offset : Vector2) (rect : Rect2) (px : Pixel)
    (hw : 0 ≤ rect.width) (hh : 0 ≤ rect.height) :
    bm.draw_rect offset rect px =
      (rectPoints offset rect).foldlM (fun acc q => acc.draw_point q px) bm ∧
    (rectPoints offset rect).length = (rect.width.toNat + 1) * (rect.height.toNat + 1) ∧
    (Bitmap.new { width := 10, height := 10 }).draw_rect { x := 2, y := 2 }
        { width := 3, height := 3 } (Pixel.new 10 20 30) =
      some { size := { width := 10, height := 10 },
             memory := (List.range 100).map (fun i =>
               if 2 ≤ i % 10 ∧ i % 10 ≤ 5 ∧ 2 ≤ i / 10 ∧ i / 10 ≤ 5
               then Pixel.new 10 20 30 else Pixel.zero) } := by
  refine ⟨?_, ?_, by decide⟩
  · unfold Bitmap.draw_rect rectPoints
    rw [foldlM_flatMap]
    simp only [List.foldlM_map]
  · unfold rectPoints rangeIncl
    rw [if_neg (not_lt.mpr hw), if_neg (not_lt.mpr hh)]
    rw [List.length_flatMap]
    simp [Function.comp_def, List.map_const]

/-- C4 witness: the visited-point list of the 10×10 scenario has exactly
(3+1)*(3+1) = 16 points. -/
theorem c4_draw_rect_inclusive_witness :
    (rectPoints { x := 2, y := 2 } { width := 3, height := 3 }).length = 16 :=
  (c4_draw_rect_inclusive (Bitmap.new { width := 10, height := 10 }) { x := 2, y := 2 }
    { width := 3, height := 3 } (Pixel.new 10 20 30) (by decide) (by decide)).2.1

end TkymGraphics
